import Mathlib

/-!
Verification of the hexviewer color-conversion and AI-result caching
subsystem: a shallow embedding of `src/utils/colorUtils.ts` and the AI color
service (`aiColorService`), together with the `useAiCmyk` hook, and proofs of
the specification claims about them.

Conventions of the embedding:
* JavaScript numbers are modelled as exact rationals (`ℚ`); decimal literals
  such as `1.2`, `1.15`, `0.9` are the rationals `6/5`, `23/20`, `9/10`.
  `Math.round` is `jsRound`, rounding half-up as JS does.
* Strings are Lean `String`s; `toUpperCase` is `strToUpper` (ASCII data).
* The remote call, `localStorage` and the module-level `Map` cache are made
  explicit: `fetchAiCmykBatch` takes the pre-state (cache plus durable
  snapshot), the API-key configuration and the remote outcome as arguments
  and returns the results together with the post-state.
-/

/-- JS `Math.round`: round half away from zero; for the values arising here
(always ≥ 0 in the claims) this is `⌊q + 1/2⌋`.  Defined via `Rat.floor` so
that it is executable. -/
def jsRound (q : ℚ) : ℤ := Rat.floor (q + 1/2)

/-- The `clamp` helper of the AI color service:
`Math.max(0, Math.min(100, Math.round(n)))`. -/
def clamp (n : ℚ) : ℤ := max 0 (min 100 (jsRound n))

/-- Numeric value of one hex digit, as `parseInt(·, 16)` assigns it
(`0-9`, `a-f`, `A-F`); other characters contribute 0 (they do not occur on
the valid inputs the program feeds to the decoder). -/
def hexDigitVal (c : Char) : Nat :=
  let n := c.toNat
  if 48 ≤ n ∧ n ≤ 57 then n - 48
  else if 97 ≤ n ∧ n ≤ 102 then n - 87
  else if 65 ≤ n ∧ n ≤ 70 then n - 55
  else 0

/-- Character class `[0-9A-Fa-f]` of the validation regex. -/
def isHexDigit (c : Char) : Bool :=
  let n := c.toNat
  decide ((48 ≤ n ∧ n ≤ 57) ∨ (97 ≤ n ∧ n ≤ 102) ∨ (65 ≤ n ∧ n ≤ 70))

/-- The characters of `s` after an optional leading `#`, as matched by the
regex `^#?([0-9A-Fa-f]{3}){1,2}$` and by `hex.replace('#','')` in the RGB
decoder (whose argument always carries the `#` at the front when present). -/
def hexBody (s : String) : List Char :=
  match s.data with
  | c :: rest => if c = '#' then rest else c :: rest
  | [] => []

/-- `isValidHex` from `colorUtils.ts`: the regex
`^#?([0-9A-Fa-f]{3}){1,2}$` — an optional `#` followed by exactly 3 or 6 hex
digits. -/
def isValidHex (hex : String) : Bool :=
  ((hexBody hex).length == 3 || (hexBody hex).length == 6)
    && (hexBody hex).all isHexDigit

/-- JS `toUpperCase` on the ASCII strings this program handles. -/
def strToUpper (s : String) : String := ⟨s.data.map Char.toUpper⟩

/-- `normalizeHex` from `colorUtils.ts`: prefix with `#` when missing,
return `#FFFFFF` when invalid, else the uppercased string. -/
def normalizeHex (hex : String) : String :=
  let cleaned := if hex.data.head? = some '#' then hex else "#" ++ hex
  if isValidHex cleaned then strToUpper cleaned else "#FFFFFF"

/-- An RGB triple as decoded by `hexToRgb` (components 0–255). -/
structure Rgb where
  r : Nat
  g : Nat
  b : Nat
deriving DecidableEq

/-- 3-digit shorthand expansion: `color.split('').map(c => c + c).join('')`. -/
def expand3 (l : List Char) : List Char := l.flatMap (fun c => [c, c])

/-- `hexToRgb` from `colorUtils.ts`: drop the `#`, expand a 3-character body,
then parse the three 2-digit groups base 16.  (Out-of-range reads of a short
string, `NaN` in JS, are defaulted to 0; the program only decodes validated
strings.) -/
def hexToRgb (hex : String) : Rgb :=
  let color0 := hexBody hex
  let color := if color0.length = 3 then expand3 color0 else color0
  { r := 16 * hexDigitVal (color.getD 0 '0') + hexDigitVal (color.getD 1 '0')
    g := 16 * hexDigitVal (color.getD 2 '0') + hexDigitVal (color.getD 3 '0')
    b := 16 * hexDigitVal (color.getD 4 '0') + hexDigitVal (color.getD 5 '0') }

/-- A CMYK quadruple of (integer) ink percentages. -/
structure CmykInts where
  c : ℤ
  m : ℤ
  y : ℤ
  k : ℤ
deriving DecidableEq

/-- The deterministic ("standard math") RGB→CMYK conversion, exactly the
formulas shared by `getPrintConversions` and `parseAiResponse`:
`K = 1 − max(R/255, G/255, B/255)`, and each chromatic channel is
`round(100·(1 − X/255 − K)/(1 − K))` guarded by `K == 1 ? 0`. -/
def standardCmyk (r g b : Nat) : CmykInts :=
  let rP : ℚ := r / 255
  let gP : ℚ := g / 255
  let bP : ℚ := b / 255
  let kStd : ℚ := 1 - max rP (max gP bP)
  { c := if kStd = 1 then 0 else jsRound ((1 - rP - kStd) / (1 - kStd) * 100)
    m := if kStd = 1 then 0 else jsRound ((1 - gP - kStd) / (1 - kStd) * 100)
    y := if kStd = 1 then 0 else jsRound ((1 - bP - kStd) / (1 - kStd) * 100)
    k := jsRound (kStd * 100) }

/-- `getHue` from `colorUtils.ts`: hue in degrees computed by the standard
max/min chroma formula (0 when the color is achromatic). -/
def getHue (r g b : Nat) : ℚ :=
  let rP : ℚ := r / 255
  let gP : ℚ := g / 255
  let bP : ℚ := b / 255
  let mx := max rP (max gP bP)
  let mn := min rP (min gP bP)
  let h : ℚ :=
    if mx = mn then 0
    else
      let d := mx - mn
      if mx = rP then (gP - bP) / d + (if gP < bP then 6 else 0)
      else if mx = gP then (bP - rP) / d + 2
      else (rP - gP) / d + 4
  (h / 6) * 360

/-- Which smart-recipe rule `getPrintConversions` applies: the four-way
`if`/`else if` chain, in source order (rich black, warm, blue, green,
otherwise pass-through). -/
inductive SmartRule
  | richBlack
  | warm
  | blue
  | green
  | noRule
deriving DecidableEq

/-- Rule selection of the heuristic engine, exactly the chain of conditions
of `getPrintConversions` (first match wins). -/
def selectSmartRule (normalized : String) (hue : ℚ) : SmartRule :=
  if normalized = "#000000" then .richBlack
  else if (0 ≤ hue ∧ hue ≤ 50) ∨ (330 ≤ hue ∧ hue ≤ 360) then .warm
  else if 190 ≤ hue ∧ hue ≤ 260 then .blue
  else if 70 ≤ hue ∧ hue ≤ 165 then .green
  else .noRule

/-- The modifications each branch of the heuristic engine applies to the
deterministic values, with its rationale string. -/
def applySmartRule (rule : SmartRule) (std : CmykInts) : CmykInts × String :=
  match rule with
  | .richBlack =>
      (⟨60, 40, 40, 100⟩,
       "Rich Black mix applied for deeper, professional coverage.")
  | .warm =>
      (⟨0, min 100 (jsRound ((std.m : ℚ) * (6/5))),
        min 100 (jsRound ((std.y : ℚ) * (23/20))), 0⟩,
       "Removed Cyan/Black to prevent browning; boosted vibrancy for print.")
  | .blue =>
      (⟨100, min 70 std.m, std.y, max 5 (min 15 (std.k + 5))⟩,
       "Capped Magenta to prevent purple shift; boosted Cyan and added depth Black.")
  | .green =>
      (⟨jsRound ((std.c : ℚ) * (9/10)), 0, 100, 0⟩,
       "Removed Magenta/Black to prevent mudding; relied on heavy Cyan/Yellow mix.")
  | .noRule => (std, "Standard conversion applied.")

/-- The deterministic conversion record of a `PrintConversion`. -/
structure StandardAuto where
  c : ℤ
  m : ℤ
  y : ℤ
  k : ℤ
  description : String
deriving DecidableEq

/-- The smart-recipe record of a `PrintConversion`. -/
structure SmartPrintRecipe where
  c : ℤ
  m : ℤ
  y : ℤ
  k : ℤ
  modifications_made : String
  paper_type : String
deriving DecidableEq

/-- The `conversions` field of a `PrintConversion`. -/
structure ConversionsPair where
  standard_auto : StandardAuto
  smart_print_recipe : SmartPrintRecipe
deriving DecidableEq

/-- The `PrintConversion` interface from `types.ts`. -/
structure PrintConversion where
  input_hex : String
  conversions : ConversionsPair
deriving DecidableEq

/-- `getPrintConversions` from `colorUtils.ts`: normalize, decode, compute
the deterministic conversion, then the heuristic smart recipe by the
first-matching rule. -/
def getPrintConversions (hex : String) : PrintConversion :=
  let normalized := normalizeHex hex
  let rgb := hexToRgb normalized
  let std := standardCmyk rgb.r rgb.g rgb.b
  let hue := getHue rgb.r rgb.g rgb.b
  let smart := applySmartRule (selectSmartRule normalized hue) std
  { input_hex := normalized
    conversions :=
      { standard_auto :=
          ⟨std.c, std.m, std.y, std.k,
           "Standard mathematical conversion. May appear duller on paper."⟩
        smart_print_recipe :=
          ⟨smart.1.c, smart.1.m, smart.1.y, smart.1.k, smart.2,
           "Regular Stock"⟩ } }

/-- The deterministic CMYK quadruple `getPrintConversions` computes for an
input (after normalization and RGB decoding). -/
def stdOf (hex : String) : CmykInts :=
  let rgb := hexToRgb (normalizeHex hex)
  standardCmyk rgb.r rgb.g rgb.b

/-- The hue `getPrintConversions` computes for an input. -/
def hueOf (hex : String) : ℚ :=
  let rgb := hexToRgb (normalizeHex hex)
  getHue rgb.r rgb.g rgb.b

/-- The smart recipe (values and rationale) `getPrintConversions` computes
for an input. -/
def smartOf (hex : String) : CmykInts × String :=
  applySmartRule (selectSmartRule (normalizeHex hex) (hueOf hex)) (stdOf hex)

/-- Provenance of a result: the `source` field of `AiPrintResult`. -/
inductive Source
  | ai
  | heuristic
  | cache
deriving DecidableEq

/-- `AiPrintResult` from the AI color service: a `PrintConversion` together
with its provenance. -/
structure AiPrintResult extends PrintConversion where
  source : Source
deriving DecidableEq

/-- The in-memory recipe cache, a JS `Map<string, AiPrintResult>` modelled as
an insertion-ordered association list with unique keys. -/
abbrev CacheMap := List (String × AiPrintResult)

/-- `Map.get`: the value stored under `k`, if any. -/
def mapGet (m : CacheMap) (k : String) : Option AiPrintResult :=
  (m.find? (fun e => e.1 == k)).map (fun e => e.2)

/-- `Map.set`: overwrite the entry for `k` in place, or append a new one. -/
def mapSet (m : CacheMap) (k : String) (v : AiPrintResult) : CacheMap :=
  match m with
  | [] => [(k, v)]
  | e :: rest => if e.1 == k then (k, v) :: rest else e :: mapSet rest k v

/-- The state the AI color service mutates: the in-memory `cache` plus the
`localStorage` snapshot under `hexviewer_ai_cmyk_cache` (`none` when the key
is absent). -/
structure SysState where
  cache : CacheMap
  storage : Option CacheMap
deriving DecidableEq

/-- `persistCache`: `Array.from(cache.entries()).slice(-200)` — the most
recent 200 entries in insertion order. -/
def persistSnapshot (m : CacheMap) : CacheMap := m.drop (m.length - 200)

/-- `hydrateCache`: load the stored entries into an empty in-memory cache,
re-tagging each as provenance `cache`; corrupt/absent data yields the empty
cache. -/
def hydrateCache (stored : Option CacheMap) : CacheMap :=
  match stored with
  | none => []
  | some entries =>
      entries.foldl (fun m e => mapSet m e.1 ⟨e.2.toPrintConversion, .cache⟩) []

/-- `heuristicFallback`: the synchronous heuristic result,
`{ ...getPrintConversions(hex), source: 'heuristic' }`. -/
def heuristicFallback (hex : String) : AiPrintResult :=
  ⟨getPrintConversions hex, .heuristic⟩

/-- One element of the JSON array the remote service is asked to return:
`{hex, c, m, y, k, explanation, paper}`. -/
structure AiItem where
  hex : String
  c : ℚ
  m : ℚ
  y : ℚ
  k : ℚ
  explanation : String
  paper : String
deriving DecidableEq

/-- `buildPrompt` from the AI color service: the instruction text embedding
the quoted, comma-separated hex list.  (Braces of the JSON template are
written with character escapes.) -/
def buildPrompt (hexCodes : List String) : String :=
  let hexList := String.intercalate ", " (hexCodes.map (fun h => "\"" ++ h ++ "\""))
  "You are an expert print color technician specializing in offset and digital CMYK printing. For each hex color below, provide an optimized CMYK recipe for professional printing.\n\nHex codes: ["
    ++ hexList ++
    "]\n\nFor EACH color provide:\n1. Optimized C, M, Y, K values (integers 0-100) for vibrant print reproduction. Apply professional knowledge:\n   - Rich black (C60/M40/Y40/K100) for pure black\n   - Remove cyan from warm colors to prevent mudding/browning\n   - Cap magenta for blues to prevent purple shift\n   - Remove magenta from greens to keep them clean\n   - Keep total ink coverage under 300%\n   - Account for CMYK gamut being smaller than RGB\n2. A 1-2 sentence explanation of your modifications for a designer audience\n3. Recommended paper type\n\nRespond with ONLY a JSON array, no markdown, no extra text. Each element:\n\x7b\"hex\":\"#XXXXXX\",\"c\":0,\"m\":0,\"y\":0,\"k\":0,\"explanation\":\"...\",\"paper\":\"...\"\x7d"

/-- The entry `parseAiResponse` builds from one parsed array element: the
`standard_auto` record is recomputed locally from the normalized hex, the
smart recipe takes the clamped remote values, a falsy (empty) paper label
defaults to `Regular Stock`, and the result is tagged `ai`. -/
def mkAiResult (item : AiItem) : String × AiPrintResult :=
  let normalized := normalizeHex item.hex
  let rgb := hexToRgb normalized
  let std := standardCmyk rgb.r rgb.g rgb.b
  (normalized,
   { input_hex := normalized
     conversions :=
       { standard_auto :=
           ⟨std.c, std.m, std.y, std.k,
            "Standard mathematical conversion. May appear duller on paper."⟩
         smart_print_recipe :=
           ⟨clamp item.c, clamp item.m, clamp item.y, clamp item.k,
            item.explanation,
            if item.paper = "" then "Regular Stock" else item.paper⟩ }
     source := .ai })

/-- `parseAiResponse`: the code-fence stripping plus `JSON.parse` of the
response text is abstracted into its outcome, `Except Unit (List AiItem)` —
`.ok items` when the cleaned text parses as a typed JSON array, `.error ()`
when parsing throws.  On success every array element is stored under its
normalized hex; on failure every requested hex not already present is given
the heuristic fallback (the `catch` branch of the source). -/
def parseAiResponse (parsed : Except Unit (List AiItem))
    (requestedHexes : List String) : CacheMap :=
  match parsed with
  | .ok items =>
      items.foldl (fun acc item =>
        let e := mkAiResult item
        mapSet acc e.1 e.2) []
  | .error _ =>
      requestedHexes.foldl (fun acc hex =>
        if (mapGet acc hex).isSome then acc
        else mapSet acc hex (heuristicFallback hex)) []

/-- The test `!apiKey || apiKey === 'PLACEHOLDER_API_KEY'` on
`process.env.GEMINI_API_KEY` (absent or empty values are falsy). -/
def keyMissing (apiKey : Option String) : Bool :=
  match apiKey with
  | none => true
  | some s => s == "" || s == "PLACEHOLDER_API_KEY"

/-- Outcome of the single remote `fetch`: `failure` covers a network error,
a thrown exception and a non-2xx status (all reach the outer `catch`);
`success parsed` is an ok response whose extracted text parses — or fails to
parse — as a typed JSON array. -/
inductive RemoteOutcome
  | failure
  | success (parsed : Except Unit (List AiItem))

/-- The partition loop at the head of `fetchAiCmykBatch`: normalized input
hexes found in the cache go into the results map, the rest (in order, with
repetitions) into the `uncached` list. -/
def partitionCached (hexCodes : List String) (cache : CacheMap) :
    CacheMap × List String :=
  hexCodes.foldl (fun acc hex =>
    let normalized := normalizeHex hex
    match mapGet cache normalized with
    | some c => (mapSet acc.1 normalized c, acc.2)
    | none => (acc.1, acc.2 ++ [normalized])) ([], [])

/-- What one call to `fetchAiCmykBatch` produces: the returned map, the
post-state of the two cache tiers, and the single remote request (the
`uncached` list handed to `buildPrompt`) when one was issued. -/
structure FetchResult where
  results : CacheMap
  state : SysState
  remoteRequested : Option (List String)
deriving DecidableEq

/-- `fetchAiCmykBatch` from the AI color service, with the ambient state and
the remote outcome explicit.  Branches, in source order: all-cached early
return; missing/placeholder credential → heuristic for every uncached hex,
cached and persisted; remote failure (throw or non-ok) → heuristic results
only, state untouched; remote success → the parsed map is merged into both
the results and the cache, then persisted. -/
def fetchAiCmykBatch (hexCodes : List String) (apiKey : Option String)
    (outcome : RemoteOutcome) (st : SysState) : FetchResult :=
  let p := partitionCached hexCodes st.cache
  let results := p.1
  let uncached := p.2
  if uncached.isEmpty then ⟨results, st, none⟩
  else if keyMissing apiKey then
    let rc := uncached.foldl (fun (acc : CacheMap × CacheMap) hex =>
      let fb := heuristicFallback hex
      (mapSet acc.1 hex fb, mapSet acc.2 hex fb)) (results, st.cache)
    ⟨rc.1, ⟨rc.2, some (persistSnapshot rc.2)⟩, none⟩
  else
    match outcome with
    | .failure =>
        ⟨uncached.foldl (fun acc hex => mapSet acc hex (heuristicFallback hex))
          results,
         st, some uncached⟩
    | .success parsed =>
        let parsedMap := parseAiResponse parsed uncached
        let rc := parsedMap.foldl (fun (acc : CacheMap × CacheMap) e =>
          (mapSet acc.1 e.1 e.2, mapSet acc.2 e.1 e.2)) (results, st.cache)
        ⟨rc.1, ⟨rc.2, some (persistSnapshot rc.2)⟩, some uncached⟩

/-- `getCachedResult`: direct lookup of a normalized hex in the in-memory
cache. -/
def getCachedResult (st : SysState) (hex : String) : Option AiPrintResult :=
  mapGet st.cache (normalizeHex hex)

/-- Observable state of the `useAiCmyk` hook, plus the bookkeeping that
models its effect lifecycle: `activeGen` is the generation of the effect
whose cleanup has not yet run (its `cancelled` flag is still `false`), and
`nextGen` numbers effect runs. -/
structure AiHookState where
  aiResults : CacheMap
  isLoading : Bool
  activeGen : Option Nat
  nextGen : Nat
deriving DecidableEq

/-- Events of the hook lifecycle. `refresh colors` is a change of the
`hexKey` dependency: React runs the previous effect's cleanup (setting its
`cancelled` flag), then the new effect body — which returns at once when
`colors` is empty and otherwise sets the loading flag and starts a fetch.
`complete g results` (resp. `fail g`) is the `.then` (resp. `.catch`)
continuation of the fetch started by generation `g`. `teardown` is the
unmount cleanup of the consuming context. -/
inductive AiHookEvent
  | refresh (colors : List String)
  | complete (gen : Nat) (results : CacheMap)
  | fail (gen : Nat)
  | teardown

/-- One step of the `useAiCmyk` effect machine.  A completion whose
generation is no longer active hits the `if (!cancelled)` guard and leaves
the observable state untouched. -/
def useAiCmykStep (s : AiHookState) (e : AiHookEvent) : AiHookState :=
  match e with
  | .refresh colors =>
      if colors.isEmpty then { s with activeGen := none }
      else { s with isLoading := true, activeGen := some s.nextGen,
                    nextGen := s.nextGen + 1 }
  | .complete g results =>
      if s.activeGen = some g then
        { s with
            aiResults := results.foldl (fun m e => mapSet m e.1 e.2) s.aiResults
            isLoading := false }
      else s
  | .fail g =>
      if s.activeGen = some g then { s with isLoading := false } else s
  | .teardown => { s with activeGen := none }

/-- The hook's initial state: empty results, not loading, no effect run. -/
def initAiHookState : AiHookState := ⟨[], false, none, 0⟩

/-- The hook state after a sequence of lifecycle events. -/
def runAiHook (events : List AiHookEvent) : AiHookState :=
  events.foldl useAiCmykStep initAiHookState

/-! ### Numeric helper lemmas -/

theorem jsRound_eq (q : ℚ) : jsRound q = ⌊q + 1/2⌋ := by
  rw [jsRound]
  rw [show ⌊q + 1/2⌋ = (q + 1/2).num / (q + 1/2).den from Rat.floor_def]
  exact Rat.floor_def' _

theorem jsRound_eq_int (q : ℚ) (z : ℤ) (h1 : (z : ℚ) ≤ q + 1/2)
    (h2 : q + 1/2 < z + 1) : jsRound q = z := by
  rw [jsRound_eq, Int.floor_eq_iff]
  exact ⟨h1, by exact_mod_cast h2⟩

theorem jsRound_bounds (q : ℚ) (h0 : 0 ≤ q) (h100 : q ≤ 100) :
    0 ≤ jsRound q ∧ jsRound q ≤ 100 := by
  rw [jsRound_eq]
  constructor
  · exact Int.le_floor.mpr (by push_cast; linarith)
  · have : ⌊q + 1/2⌋ < 101 := Int.floor_lt.mpr (by push_cast; linarith)
    omega

theorem clamp_bounds (q : ℚ) : 0 ≤ clamp q ∧ clamp q ≤ 100 := by
  unfold clamp
  constructor
  · exact le_max_left 0 _
  · exact max_le (by norm_num) (min_le_left 100 _)

/-! ### Character and string helper lemmas -/

theorem char_toNat_ofNat (n : Nat) (h : n < 55296) : (Char.ofNat n).toNat = n := by
  have hv : n.isValidChar := Or.inl h
  simp only [Char.ofNat, hv, ↓reduceDIte, Char.ofNatAux, Char.toNat]
  rfl

theorem toUpper_of_not_lower (c : Char) (h : ¬(97 ≤ c.toNat ∧ c.toNat ≤ 122)) :
    Char.toUpper c = c := by
  unfold Char.toUpper
  simp only [ge_iff_le, if_neg h]

theorem toUpper_toNat_of_lower (c : Char) (h : 97 ≤ c.toNat ∧ c.toNat ≤ 122) :
    (Char.toUpper c).toNat = c.toNat - 32 := by
  unfold Char.toUpper
  rw [if_pos h]
  exact char_toNat_ofNat _ (by omega)

theorem isHexDigit_iff (c : Char) :
    isHexDigit c = true ↔
      (48 ≤ c.toNat ∧ c.toNat ≤ 57) ∨ (97 ≤ c.toNat ∧ c.toNat ≤ 102)
        ∨ (65 ≤ c.toNat ∧ c.toNat ≤ 70) := by
  unfold isHexDigit
  exact decide_eq_true_iff

theorem isHexDigit_toUpper (c : Char) (h : isHexDigit c = true) :
    isHexDigit (Char.toUpper c) = true := by
  rw [isHexDigit_iff] at h
  by_cases hl : 97 ≤ c.toNat ∧ c.toNat ≤ 122
  · have ht := toUpper_toNat_of_lower c hl
    rw [isHexDigit_iff, ht]
    omega
  · rw [toUpper_of_not_lower c hl, isHexDigit_iff]
    omega

theorem toUpper_toUpper (c : Char) : Char.toUpper (Char.toUpper c) = Char.toUpper c := by
  by_cases hl : 97 ≤ c.toNat ∧ c.toNat ≤ 122
  · have ht := toUpper_toNat_of_lower c hl
    exact toUpper_of_not_lower _ (by omega)
  · rw [toUpper_of_not_lower c hl]
    exact toUpper_of_not_lower c hl

theorem string_ext (s t : String) (h : s.data = t.data) : s = t := by
  cases s; cases t; exact congrArg String.mk h

theorem strToUpper_data (s : String) : (strToUpper s).data = s.data.map Char.toUpper := rfl

/-! ### Map helper lemmas -/

theorem mapGet_nil (k : String) : mapGet [] k = none := rfl

theorem mapGet_eq_some_mem (m : CacheMap) (k : String) (v : AiPrintResult)
    (h : mapGet m k = some v) : (k, v) ∈ m := by
  unfold mapGet at h
  cases hf : m.find? (fun e => e.1 == k) with
  | none => rw [hf] at h; simp at h
  | some e =>
      rw [hf] at h
      have he : e ∈ m := List.mem_of_find?_eq_some hf
      have hp := List.find?_some hf
      have hk : e.1 = k := by simpa using hp
      have hv : e.2 = v := by simpa using h
      have : e = (k, v) := by
        cases e
        simp_all
      rwa [this] at he

theorem mapGet_mapSet_self (m : CacheMap) (k : String) (v : AiPrintResult) :
    mapGet (mapSet m k v) k = some v := by
  induction m with
  | nil => simp [mapSet, mapGet, List.find?]
  | cons e rest ih =>
      unfold mapSet
      by_cases he : e.1 = k
      · rw [if_pos (by simpa using he)]
        simp [mapGet, List.find?]
      · rw [if_neg (by simpa using he)]
        unfold mapGet at ih ⊢
        rw [List.find?_cons_of_neg _ (by simpa using he)]
        exact ih

theorem mapGet_mapSet_ne (m : CacheMap) (k k' : String) (v : AiPrintResult)
    (h : k ≠ k') : mapGet (mapSet m k v) k' = mapGet m k' := by
  have hb : (k == k') = false := by simpa using h
  induction m with
  | nil => simp [mapSet, mapGet, List.find?, hb]
  | cons e rest ih =>
      unfold mapSet
      by_cases he : e.1 = k
      · rw [if_pos (by simpa using he)]
        unfold mapGet
        rw [List.find?_cons_of_neg _ (by simpa using h),
            List.find?_cons_of_neg _ (by simp [he, h])]
      · rw [if_neg (by simpa using he)]
        unfold mapGet at ih ⊢
        by_cases he' : e.1 = k'
        · rw [List.find?_cons_of_pos _ (by simpa using he'),
              List.find?_cons_of_pos _ (by simpa using he')]
        · rw [List.find?_cons_of_neg _ (by simpa using he'),
              List.find?_cons_of_neg _ (by simpa using he')]
          exact ih

theorem mem_mapSet (m : CacheMap) (k : String) (v : AiPrintResult)
    (e : String × AiPrintResult) (he : e ∈ mapSet m k v) : e ∈ m ∨ e = (k, v) := by
  induction m with
  | nil => simp [mapSet] at he; simp [he]
  | cons e' rest ih =>
      unfold mapSet at he
      by_cases h : e'.1 = k
      · rw [if_pos (by simpa using h)] at he
        rcases List.mem_cons.mp he with h1 | h1
        · right; exact h1
        · left; exact List.mem_cons_of_mem _ h1
      · rw [if_neg (by simpa using h)] at he
        rcases List.mem_cons.mp he with h1 | h1
        · left; exact h1 ▸ List.mem_cons_self _ _
        · rcases ih h1 with h2 | h2
          · left; exact List.mem_cons_of_mem _ h2
          · right; exact h2

theorem keys_mapSet (m : CacheMap) (k : String) (v : AiPrintResult) :
    (mapSet m k v).map Prod.fst = m.map Prod.fst ∨
      (mapSet m k v).map Prod.fst = m.map Prod.fst ++ [k] := by
  induction m with
  | nil => right; simp [mapSet]
  | cons e rest ih =>
      unfold mapSet
      by_cases h : e.1 = k
      · left
        rw [if_pos (by simpa using h)]
        simp [h]
      · rw [if_neg (by simpa using h)]
        rcases ih with h1 | h1
        · left; simp [h1]
        · right; simp [h1]

/-- A fold of `mapSet`s does not touch keys outside the written list. -/
theorem mapGet_foldl_set_not_mem (keys : List String) (f : String → AiPrintResult)
    (m : CacheMap) (k : String) (hk : k ∉ keys) :
    mapGet (keys.foldl (fun acc h => mapSet acc h (f h)) m) k = mapGet m k := by
  induction keys generalizing m with
  | nil => rfl
  | cons h t ih =>
      simp only [List.foldl_cons]
      have hne : h ≠ k := fun he => hk (he ▸ List.mem_cons_self _ _)
      rw [ih _ (fun hm => hk (List.mem_cons_of_mem _ hm)),
          mapGet_mapSet_ne _ _ _ _ hne]

/-- A fold of `mapSet`s whose written value depends only on the key: a key
in the list ends up bound to its value. -/
theorem mapGet_foldl_set_mem (keys : List String) (f : String → AiPrintResult)
    (m : CacheMap) (k : String) (hk : k ∈ keys) :
    mapGet (keys.foldl (fun acc h => mapSet acc h (f h)) m) k = some (f k) := by
  induction keys generalizing m with
  | nil => cases hk
  | cons h t ih =>
      simp only [List.foldl_cons]
      by_cases hmem : k ∈ t
      · exact ih _ hmem
      · have hk' : k = h := by
          rcases List.mem_cons.mp hk with h1 | h1
          · exact h1
          · exact absurd h1 hmem
        subst hk'
        rw [mapGet_foldl_set_not_mem t f _ k hmem]
        exact mapGet_mapSet_self m k (f k)

/-! ### Fold invariants -/

theorem foldl_invariant {α β : Type} (P : β → Prop) (f : β → α → β) (l : List α)
    (b : β) (hb : P b) (hf : ∀ b a, P b → P (f b a)) : P (l.foldl f b) := by
  induction l generalizing b with
  | nil => exact hb
  | cons a t ih => exact ih _ (hf b a hb)

theorem foldl_invariant_mem {α β : Type} (P : β → Prop) (f : β → α → β)
    (l : List α) (b : β) (hb : P b) (hf : ∀ b a, a ∈ l → P b → P (f b a)) :
    P (l.foldl f b) := by
  induction l generalizing b with
  | nil => exact hb
  | cons a t ih =>
      exact ih _ (hf b a (List.mem_cons_self _ _) hb)
        (fun b' a' ha' => hf b' a' (List.mem_cons_of_mem _ ha'))

theorem nodup_keys_mapSet (m : CacheMap) (k : String) (v : AiPrintResult)
    (h : (m.map Prod.fst).Nodup) : ((mapSet m k v).map Prod.fst).Nodup := by
  induction m with
  | nil => simp [mapSet]
  | cons e rest ih =>
      unfold mapSet
      by_cases he : e.1 = k
      · rw [if_pos (by simpa using he)]
        simpa [he] using h
      · rw [if_neg (by simpa using he)]
        simp only [List.map_cons, List.nodup_cons] at h ⊢
        refine ⟨?_, ih h.2⟩
        intro hmem
        rcases keys_mapSet rest k v with hk | hk
        · rw [hk] at hmem; exact h.1 hmem
        · rw [hk] at hmem
          rcases List.mem_append.mp hmem with h1 | h1
          · exact h.1 h1
          · exact he (by simpa using h1)

/-! ### Merge lemmas (iterating `Map.set` over a list of entries) -/

theorem mapGet_merge_not_mem (l m : CacheMap) (k : String)
    (h : ∀ e ∈ l, e.1 ≠ k) :
    mapGet (l.foldl (fun acc e => mapSet acc e.1 e.2) m) k = mapGet m k := by
  induction l generalizing m with
  | nil => rfl
  | cons e t ih =>
      simp only [List.foldl_cons]
      rw [ih _ (fun e' he' => h e' (List.mem_cons_of_mem _ he')),
          mapGet_mapSet_ne _ _ _ _ (h e (List.mem_cons_self _ _))]

theorem mapGet_merge_mem_nodup (l m : CacheMap) (k : String) (v : AiPrintResult)
    (hn : (l.map Prod.fst).Nodup) (hv : (k, v) ∈ l) :
    mapGet (l.foldl (fun acc e => mapSet acc e.1 e.2) m) k = some v := by
  induction l generalizing m with
  | nil => cases hv
  | cons e t ih =>
      simp only [List.map_cons, List.nodup_cons] at hn
      simp only [List.foldl_cons]
      rcases List.mem_cons.mp hv with h1 | h1
      · subst h1
        rw [mapGet_merge_not_mem t _ k
            (fun e' he' hk => hn.1 (by
              have h2 : e'.1 ∈ t.map Prod.fst := List.mem_map_of_mem Prod.fst he'
              rwa [hk] at h2))]
        exact mapGet_mapSet_self m k v
      · exact ih _ hn.2 h1

theorem mapGet_merge_origin (l m : CacheMap) (k : String) (v : AiPrintResult)
    (h : mapGet (l.foldl (fun acc e => mapSet acc e.1 e.2) m) k = some v) :
    mapGet m k = some v ∨ v ∈ l.map Prod.snd := by
  induction l generalizing m with
  | nil => exact Or.inl h
  | cons e t ih =>
      simp only [List.foldl_cons] at h
      rcases ih _ h with h1 | h1
      · by_cases hk : e.1 = k
        · subst hk
          rw [mapGet_mapSet_self] at h1
          right
          simp [← Option.some_inj.mp h1]
        · rw [mapGet_mapSet_ne _ _ _ _ hk] at h1
          exact Or.inl h1
      · right; exact List.mem_cons_of_mem _ h1

/-! ### Lemmas about the guarded fallback fold of `parseAiResponse` -/

theorem guardfold_preserve (req : List String) (acc : CacheMap) (k : String)
    (w : AiPrintResult) (h : mapGet acc k = some w) :
    mapGet (req.foldl (fun acc hex =>
      if (mapGet acc hex).isSome then acc
      else mapSet acc hex (heuristicFallback hex)) acc) k = some w := by
  induction req generalizing acc with
  | nil => exact h
  | cons hx t ih =>
      simp only [List.foldl_cons]
      by_cases hs : (mapGet acc hx).isSome
      · rw [if_pos hs]; exact ih _ h
      · rw [if_neg hs]
        by_cases hk : hx = k
        · subst hk
          rw [h] at hs
          exact absurd rfl hs
        · exact ih _ (by rw [mapGet_mapSet_ne _ _ _ _ hk]; exact h)

theorem guardfold_get (req : List String) (acc : CacheMap) (k : String)
    (hnone : mapGet acc k = none) (hk : k ∈ req) :
    mapGet (req.foldl (fun acc hex =>
      if (mapGet acc hex).isSome then acc
      else mapSet acc hex (heuristicFallback hex)) acc) k
      = some (heuristicFallback k) := by
  induction req generalizing acc with
  | nil => cases hk
  | cons hx t ih =>
      simp only [List.foldl_cons]
      by_cases hxk : hx = k
      · subst hxk
        rw [if_neg (by rw [hnone]; simp)]
        exact guardfold_preserve t _ hx _ (mapGet_mapSet_self acc hx _)
      · have hkt : k ∈ t := by
          rcases List.mem_cons.mp hk with h1 | h1
          · exact absurd h1.symm hxk
          · exact h1
        by_cases hs : (mapGet acc hx).isSome
        · rw [if_pos hs]; exact ih _ hnone hkt
        · rw [if_neg hs]
          exact ih _ (by rw [mapGet_mapSet_ne _ _ _ _ hxk]; exact hnone) hkt

/-! ### Lemmas about the partition loop of `fetchAiCmykBatch` -/

theorem partitionCached_eq (hexCodes : List String) (cache : CacheMap) :
    partitionCached hexCodes cache = hexCodes.foldl (fun acc hex =>
      match mapGet cache (normalizeHex hex) with
      | some c => (mapSet acc.1 (normalizeHex hex) c, acc.2)
      | none => (acc.1, acc.2 ++ [normalizeHex hex])) ([], []) := rfl

theorem partition_fold_snd (hexCodes : List String) (cache : CacheMap)
    (acc : CacheMap × List String) :
    (hexCodes.foldl (fun acc hex =>
      match mapGet cache (normalizeHex hex) with
      | some c => (mapSet acc.1 (normalizeHex hex) c, acc.2)
      | none => (acc.1, acc.2 ++ [normalizeHex hex])) acc).2
    = acc.2 ++ (hexCodes.map normalizeHex).filter
        (fun n => (mapGet cache n).isNone) := by
  induction hexCodes generalizing acc with
  | nil => simp
  | cons h t ih =>
      simp only [List.foldl_cons, List.map_cons, List.filter_cons]
      cases hm : mapGet cache (normalizeHex h) with
      | some c =>
          simp only [hm, Option.isNone_some, Bool.false_eq_true, if_false]
          exact ih _
      | none =>
          simp only [hm, Option.isNone_none, if_true]
          rw [ih _]
          simp

theorem uncached_eq (hexCodes : List String) (cache : CacheMap) :
    (partitionCached hexCodes cache).2
      = (hexCodes.map normalizeHex).filter (fun n => (mapGet cache n).isNone) := by
  rw [partitionCached_eq, partition_fold_snd]
  rfl

theorem partition_fold_fst_preserve (hexCodes : List String) (cache : CacheMap)
    (k : String) (v : AiPrintResult) (hv : mapGet cache k = some v) :
    ∀ acc : CacheMap × List String, mapGet acc.1 k = some v →
      mapGet ((hexCodes.foldl (fun acc hex =>
        match mapGet cache (normalizeHex hex) with
        | some c => (mapSet acc.1 (normalizeHex hex) c, acc.2)
        | none => (acc.1, acc.2 ++ [normalizeHex hex])) acc).1) k = some v := by
  induction hexCodes with
  | nil => exact fun acc h => h
  | cons h t ih =>
      intro acc hacc
      simp only [List.foldl_cons]
      cases hm : mapGet cache (normalizeHex h) with
      | some c =>
          simp only [hm]
          by_cases hk : normalizeHex h = k
          · subst hk
            rw [hm] at hv
            refine ih _ ?_
            rw [mapGet_mapSet_self]
            exact congrArg some (Option.some_inj.mp hv)
          · refine ih _ ?_
            rw [mapGet_mapSet_ne _ _ _ _ hk]
            exact hacc
      | none =>
          simp only [hm]
          exact ih _ hacc

theorem partition_fold_fst_miss (hexCodes : List String) (cache : CacheMap)
    (k : String) (hk : mapGet cache k = none) :
    ∀ acc : CacheMap × List String,
      mapGet ((hexCodes.foldl (fun acc hex =>
        match mapGet cache (normalizeHex hex) with
        | some c => (mapSet acc.1 (normalizeHex hex) c, acc.2)
        | none => (acc.1, acc.2 ++ [normalizeHex hex])) acc).1) k
        = mapGet acc.1 k := by
  induction hexCodes with
  | nil => exact fun acc => rfl
  | cons h t ih =>
      intro acc
      simp only [List.foldl_cons]
      cases hm : mapGet cache (normalizeHex h) with
      | some c =>
          simp only [hm]
          have hne : normalizeHex h ≠ k := by
            intro he
            rw [he, hk] at hm
            cases hm
          rw [ih _, mapGet_mapSet_ne _ _ _ _ hne]
      | none =>
          simp only [hm]
          exact ih _

theorem partition_fold_fst_hit (hexCodes : List String) (cache : CacheMap)
    (k : String) (v : AiPrintResult) (hv : mapGet cache k = some v)
    (hk : k ∈ hexCodes.map normalizeHex) :
    ∀ acc : CacheMap × List String,
      mapGet ((hexCodes.foldl (fun acc hex =>
        match mapGet cache (normalizeHex hex) with
        | some c => (mapSet acc.1 (normalizeHex hex) c, acc.2)
        | none => (acc.1, acc.2 ++ [normalizeHex hex])) acc).1) k = some v := by
  induction hexCodes with
  | nil => cases hk
  | cons h t ih =>
      intro acc
      simp only [List.foldl_cons]
      by_cases hh : normalizeHex h = k
      · cases hm : mapGet cache (normalizeHex h) with
        | some c =>
            simp only [hm]
            refine partition_fold_fst_preserve t cache k v hv _ ?_
            rw [hh] at hm ⊢
            rw [mapGet_mapSet_self]
            rw [hm] at hv
            exact congrArg some (Option.some_inj.mp hv)
        | none =>
            rw [hh, hv] at hm
            cases hm
      · have hkt : k ∈ t.map normalizeHex := by
          rcases List.mem_cons.mp hk with h1 | h1
          · exact absurd h1.symm hh
          · exact h1
        cases hm : mapGet cache (normalizeHex h) with
        | some c => simp only [hm]; exact ih hkt _
        | none => simp only [hm]; exact ih hkt _

/-! ### Pair-fold projections (loops writing results and cache together) -/

theorem pairfold_key_proj (keys : List String) (a b : CacheMap) :
    keys.foldl (fun (acc : CacheMap × CacheMap) hex =>
      (mapSet acc.1 hex (heuristicFallback hex),
       mapSet acc.2 hex (heuristicFallback hex))) (a, b)
    = (keys.foldl (fun acc hex => mapSet acc hex (heuristicFallback hex)) a,
       keys.foldl (fun acc hex => mapSet acc hex (heuristicFallback hex)) b) := by
  induction keys generalizing a b with
  | nil => rfl
  | cons h t ih => simp only [List.foldl_cons]; exact ih _ _

theorem pairfold_entry_proj (l : CacheMap) (a b : CacheMap) :
    l.foldl (fun (acc : CacheMap × CacheMap) e =>
      (mapSet acc.1 e.1 e.2, mapSet acc.2 e.1 e.2)) (a, b)
    = (l.foldl (fun acc e => mapSet acc e.1 e.2) a,
       l.foldl (fun acc e => mapSet acc e.1 e.2) b) := by
  induction l generalizing a b with
  | nil => rfl
  | cons e t ih => simp only [List.foldl_cons]; exact ih _ _

/-! ### Hook lifecycle invariant -/

theorem runAiHook_activeGen_lt (events : List AiHookEvent) (g : Nat)
    (h : (runAiHook events).activeGen = some g) :
    g < (runAiHook events).nextGen := by
  suffices hs : ∀ g, (runAiHook events).activeGen = some g
      → g < (runAiHook events).nextGen from hs g h
  unfold runAiHook
  refine foldl_invariant
    (fun (s : AiHookState) => ∀ g, s.activeGen = some g → g < s.nextGen)
    useAiCmykStep events initAiHookState ?_ ?_
  · intro g hg; cases hg
  · intro s e hP
    cases e with
    | refresh colors =>
        by_cases hc : colors.isEmpty
        · intro g hg
          simp only [useAiCmykStep, hc, if_true] at hg
          cases hg
        · intro g hg
          simp only [useAiCmykStep, hc, Bool.false_eq_true, if_false] at hg ⊢
          have : s.nextGen = g := by simpa using hg
          omega
    | complete g0 results =>
        intro g hg
        simp only [useAiCmykStep] at hg ⊢
        by_cases ha : s.activeGen = some g0
        · rw [if_pos ha] at hg ⊢
          exact hP g hg
        · rw [if_neg ha] at hg ⊢
          exact hP g hg
    | fail g0 =>
        intro g hg
        simp only [useAiCmykStep] at hg ⊢
        by_cases ha : s.activeGen = some g0
        · rw [if_pos ha] at hg ⊢
          exact hP g hg
        · rw [if_neg ha] at hg ⊢
          exact hP g hg
    | teardown =>
        intro g hg
        simp only [useAiCmykStep] at hg
        cases hg

/-! ### Structure of `normalizeHex` -/

theorem toUpper_hash : Char.toUpper '#' = '#' := by decide

theorem getPrintConversions_eq (hex : String) :
    getPrintConversions hex =
      { input_hex := normalizeHex hex
        conversions :=
          { standard_auto :=
              ⟨(stdOf hex).c, (stdOf hex).m, (stdOf hex).y, (stdOf hex).k,
               "Standard mathematical conversion. May appear duller on paper."⟩
            smart_print_recipe :=
              ⟨(smartOf hex).1.c, (smartOf hex).1.m, (smartOf hex).1.y,
               (smartOf hex).1.k, (smartOf hex).2, "Regular Stock"⟩ } } := rfl

theorem cleaned_data (hex : String) :
    (if hex.data.head? = some '#' then hex else "#" ++ hex).data
      = '#' :: hexBody hex := by
  unfold hexBody
  cases hd : hex.data with
  | nil =>
      rw [if_neg (by simp)]
      rw [String.data_append, hd]
      rfl
  | cons c rest =>
      by_cases hc : c = '#'
      · subst hc
        rw [if_pos (show (('#':Char) :: rest).head? = some '#' from rfl), hd]
        show ('#':Char) :: rest = '#' :: (if ('#':Char) = '#' then rest else '#' :: rest)
        rw [if_pos rfl]
      · rw [if_neg (by simpa using hc), String.data_append, hd]
        show '#' :: (c :: rest) = '#' :: (if c = '#' then rest else c :: rest)
        rw [if_neg hc]

theorem hexBody_of_data_hash (s : String) (l : List Char)
    (h : s.data = '#' :: l) : hexBody s = l := by
  unfold hexBody
  rw [h]
  simp

theorem hexBody_cleaned (hex : String) :
    hexBody (if hex.data.head? = some '#' then hex else "#" ++ hex)
      = hexBody hex :=
  hexBody_of_data_hash _ _ (cleaned_data hex)

theorem isValidHex_iff (hex : String) :
    isValidHex hex = true ↔
      ((hexBody hex).length = 3 ∨ (hexBody hex).length = 6)
        ∧ ∀ c ∈ hexBody hex, isHexDigit c = true := by
  unfold isValidHex
  simp [List.all_eq_true]

theorem isValidHex_cleaned (hex : String) :
    isValidHex (if hex.data.head? = some '#' then hex else "#" ++ hex)
      = isValidHex hex := by
  unfold isValidHex
  rw [hexBody_cleaned]

theorem normalizeHex_valid (hex : String) (hv : isValidHex hex = true) :
    normalizeHex hex
      = strToUpper (if hex.data.head? = some '#' then hex else "#" ++ hex) := by
  unfold normalizeHex
  rw [if_pos (by rw [isValidHex_cleaned]; exact hv)]

theorem normalizeHex_invalid (hex : String) (hv : isValidHex hex = false) :
    normalizeHex hex = "#FFFFFF" := by
  unfold normalizeHex
  rw [if_neg (by rw [isValidHex_cleaned, hv]; simp)]

theorem data_normalizeHex_valid (hex : String) (hv : isValidHex hex = true) :
    (normalizeHex hex).data = '#' :: (hexBody hex).map Char.toUpper := by
  rw [normalizeHex_valid hex hv, strToUpper_data, cleaned_data]
  simp [toUpper_hash]

theorem hexBody_normalizeHex (hex : String) (hv : isValidHex hex = true) :
    hexBody (normalizeHex hex) = (hexBody hex).map Char.toUpper :=
  hexBody_of_data_hash _ _ (data_normalizeHex_valid hex hv)

theorem isValidHex_normalizeHex (hex : String) (hv : isValidHex hex = true) :
    isValidHex (normalizeHex hex) = true := by
  rw [isValidHex_iff]
  rw [hexBody_normalizeHex hex hv]
  rw [isValidHex_iff] at hv
  refine ⟨?_, ?_⟩
  · simpa using hv.1
  · intro c hc
    rcases List.mem_map.mp hc with ⟨c0, hc0, hcc⟩
    rw [← hcc]
    exact isHexDigit_toUpper c0 (hv.2 c0 hc0)

theorem strToUpper_normalizeHex (hex : String) (hv : isValidHex hex = true) :
    strToUpper (normalizeHex hex) = normalizeHex hex := by
  apply string_ext
  rw [strToUpper_data, data_normalizeHex_valid hex hv]
  simp only [List.map_cons, toUpper_hash, List.map_map]
  congr 1
  exact List.map_congr_left (fun c _ => toUpper_toUpper c)

theorem normalizeHex_idem_valid (hex : String) (hv : isValidHex hex = true) :
    normalizeHex (normalizeHex hex) = normalizeHex hex := by
  have hd := data_normalizeHex_valid hex hv
  rw [normalizeHex_valid _ (isValidHex_normalizeHex hex hv)]
  rw [if_pos (by rw [hd]; rfl)]
  exact strToUpper_normalizeHex hex hv

theorem normalizeHex_idem (hex : String) :
    normalizeHex (normalizeHex hex) = normalizeHex hex := by
  cases hv : isValidHex hex with
  | true => exact normalizeHex_idem_valid hex hv
  | false => rw [normalizeHex_invalid hex hv]; decide

theorem length_normalizeHex_valid (hex : String) (hv : isValidHex hex = true) :
    (normalizeHex hex).length = 1 + (hexBody hex).length := by
  show (normalizeHex hex).data.length = _
  rw [data_normalizeHex_valid hex hv]
  simp [Nat.add_comm]

/-! ### Bounds of the deterministic conversion -/

theorem hexDigitVal_le (c : Char) : hexDigitVal c ≤ 15 := by
  simp only [hexDigitVal]
  repeat' split
  all_goals omega

theorem hexPair_le (c1 c2 : Char) : 16 * hexDigitVal c1 + hexDigitVal c2 ≤ 255 := by
  have h1 := hexDigitVal_le c1
  have h2 := hexDigitVal_le c2
  omega

theorem hexToRgb_le (hex : String) :
    (hexToRgb hex).r ≤ 255 ∧ (hexToRgb hex).g ≤ 255 ∧ (hexToRgb hex).b ≤ 255 := by
  unfold hexToRgb
  exact ⟨hexPair_le _ _, hexPair_le _ _, hexPair_le _ _⟩

theorem standardCmyk_bounds (r g b : Nat) (hr : r ≤ 255) (hg : g ≤ 255)
    (hb : b ≤ 255) :
    (0 ≤ (standardCmyk r g b).c ∧ (standardCmyk r g b).c ≤ 100) ∧
    (0 ≤ (standardCmyk r g b).m ∧ (standardCmyk r g b).m ≤ 100) ∧
    (0 ≤ (standardCmyk r g b).y ∧ (standardCmyk r g b).y ≤ 100) ∧
    (0 ≤ (standardCmyk r g b).k ∧ (standardCmyk r g b).k ≤ 100) := by
  have h255 : (0:ℚ) < 255 := by norm_num
  have h0r : (0:ℚ) ≤ (r:ℚ)/255 := by positivity
  have h0g : (0:ℚ) ≤ (g:ℚ)/255 := by positivity
  have h0b : (0:ℚ) ≤ (b:ℚ)/255 := by positivity
  have h1r : (r:ℚ)/255 ≤ 1 := by
    rw [div_le_one h255]; exact_mod_cast hr
  have h1g : (g:ℚ)/255 ≤ 1 := by
    rw [div_le_one h255]; exact_mod_cast hg
  have h1b : (b:ℚ)/255 ≤ 1 := by
    rw [div_le_one h255]; exact_mod_cast hb
  have hmx0 : (0:ℚ) ≤ max ((r:ℚ)/255) (max ((g:ℚ)/255) ((b:ℚ)/255)) :=
    le_trans h0r (le_max_left _ _)
  have hmx1 : max ((r:ℚ)/255) (max ((g:ℚ)/255) ((b:ℚ)/255)) ≤ 1 :=
    max_le h1r (max_le h1g h1b)
  have key : ∀ xP : ℚ, 0 ≤ xP →
      xP ≤ max ((r:ℚ)/255) (max ((g:ℚ)/255) ((b:ℚ)/255)) →
      0 ≤ (if (1 - max ((r:ℚ)/255) (max ((g:ℚ)/255) ((b:ℚ)/255)) : ℚ) = 1
            then (0:ℤ)
            else jsRound ((1 - xP - (1 - max ((r:ℚ)/255) (max ((g:ℚ)/255) ((b:ℚ)/255))))
              / (1 - (1 - max ((r:ℚ)/255) (max ((g:ℚ)/255) ((b:ℚ)/255)))) * 100)) ∧
      (if (1 - max ((r:ℚ)/255) (max ((g:ℚ)/255) ((b:ℚ)/255)) : ℚ) = 1
            then (0:ℤ)
            else jsRound ((1 - xP - (1 - max ((r:ℚ)/255) (max ((g:ℚ)/255) ((b:ℚ)/255))))
              / (1 - (1 - max ((r:ℚ)/255) (max ((g:ℚ)/255) ((b:ℚ)/255)))) * 100)) ≤ 100 := by
    intro xP hx0 hxm
    set mx := max ((r:ℚ)/255) (max ((g:ℚ)/255) ((b:ℚ)/255)) with hmx
    by_cases hk : (1 - mx : ℚ) = 1
    · rw [if_pos hk]; norm_num
    · rw [if_neg hk]
      have hmpos : (0:ℚ) < mx := by
        rcases lt_or_eq_of_le hmx0 with h | h
        · exact h
        · exact absurd (by rw [← h]; ring) hk
      have harg : (1 - xP - (1 - mx)) / (1 - (1 - mx)) * 100
          = (mx - xP) / mx * 100 := by ring_nf
      rw [harg]
      have hnum0 : (0:ℚ) ≤ mx - xP := by linarith
      have hfrac1 : (mx - xP) / mx ≤ 1 := by
        rw [div_le_one hmpos]; linarith
      have hfrac0 : (0:ℚ) ≤ (mx - xP) / mx := div_nonneg hnum0 (le_of_lt hmpos)
      exact jsRound_bounds _ (by linarith) (by linarith)
  have hkb : 0 ≤ jsRound ((1 - max ((r:ℚ)/255) (max ((g:ℚ)/255) ((b:ℚ)/255))) * 100)
      ∧ jsRound ((1 - max ((r:ℚ)/255) (max ((g:ℚ)/255) ((b:ℚ)/255))) * 100) ≤ 100 := by
    apply jsRound_bounds
    · linarith
    · linarith
  exact ⟨key _ h0r (le_max_left _ _),
         key _ h0g (le_trans (le_max_left _ _) (le_max_right _ _)),
         key _ h0b (le_trans (le_max_right _ _) (le_max_right _ _)),
         hkb⟩

/-! ### Concrete evaluations of the deterministic engine -/

theorem jsRound_zero : jsRound 0 = 0 :=
  jsRound_eq_int 0 0 (by norm_num) (by norm_num)

theorem jsRound_hundred : jsRound 100 = 100 :=
  jsRound_eq_int 100 100 (by norm_num) (by norm_num)

theorem standardCmyk_white : standardCmyk 255 255 255 = ⟨0, 0, 0, 0⟩ := by
  have hc : ((255:ℕ):ℚ)/255 = 1 := by norm_num
  simp only [standardCmyk, hc, max_self]
  norm_num [jsRound_zero]

theorem standardCmyk_black : standardCmyk 0 0 0 = ⟨0, 0, 0, 100⟩ := by
  have hc : ((0:ℕ):ℚ)/255 = 0 := by norm_num
  simp only [standardCmyk, hc, max_self]
  norm_num [jsRound_hundred]

theorem stdOf_white : stdOf "#FFFFFF" = ⟨0, 0, 0, 0⟩ := by
  simp only [stdOf]
  rw [show hexToRgb (normalizeHex "#FFFFFF") = ⟨255, 255, 255⟩ from by decide]
  exact standardCmyk_white

theorem stdOf_black : stdOf "#000000" = ⟨0, 0, 0, 100⟩ := by
  simp only [stdOf]
  rw [show hexToRgb (normalizeHex "#000000") = ⟨0, 0, 0⟩ from by decide]
  exact standardCmyk_black

theorem smartOf_black :
    smartOf "#000000"
      = (⟨60, 40, 40, 100⟩,
         "Rich Black mix applied for deeper, professional coverage.") := by
  simp only [smartOf]
  rw [show normalizeHex "#000000" = "#000000" from by decide]
  rw [show selectSmartRule "#000000" (hueOf "#000000") = .richBlack from by
    unfold selectSmartRule; rw [if_pos rfl]]
  rfl

/-! ### Lemmas about `parseAiResponse` -/

theorem mapGet_eq_none_iff (m : CacheMap) (k : String) :
    mapGet m k = none ↔ ∀ e ∈ m, e.1 ≠ k := by
  unfold mapGet
  rw [Option.map_eq_none', List.find?_eq_none]
  constructor
  · intro h e he hk
    exact absurd (by simpa using hk) (h e he)
  · intro h e he
    simpa using h e he

theorem nodup_keys_parse_ok (items : List AiItem) (req : List String) :
    ((parseAiResponse (.ok items) req).map Prod.fst).Nodup := by
  unfold parseAiResponse
  refine foldl_invariant (fun (m : CacheMap) => (m.map Prod.fst).Nodup) _ _ _ ?_ ?_
  · simp
  · intro m item hm
    exact nodup_keys_mapSet _ _ _ hm

theorem nodup_keys_parse_error (u : Unit) (req : List String) :
    ((parseAiResponse (.error u) req).map Prod.fst).Nodup := by
  unfold parseAiResponse
  refine foldl_invariant (fun (m : CacheMap) => (m.map Prod.fst).Nodup) _ _ _ ?_ ?_
  · simp
  · intro m hex hm
    by_cases hs : (mapGet m hex).isSome
    · rwa [if_pos hs]
    · rw [if_neg hs]
      exact nodup_keys_mapSet _ _ _ hm

theorem parse_error_get (u : Unit) (req : List String) (k : String)
    (hk : k ∈ req) :
    mapGet (parseAiResponse (.error u) req) k = some (heuristicFallback k) := by
  unfold parseAiResponse
  exact guardfold_get req [] k rfl hk

theorem parse_ok_values (items : List AiItem) (req : List String)
    (e : String × AiPrintResult) (he : e ∈ parseAiResponse (.ok items) req) :
    ∃ item ∈ items, e = mkAiResult item := by
  revert he
  unfold parseAiResponse
  refine foldl_invariant_mem
    (fun (m : CacheMap) => e ∈ m → ∃ item ∈ items, e = mkAiResult item) _ _ _ ?_ ?_
  · intro h; cases h
  · intro m item hitem hm he
    rcases mem_mapSet _ _ _ _ he with h1 | h1
    · exact hm h1
    · exact ⟨item, hitem, h1⟩

/-! ### Hook step helpers -/

theorem step_complete_stale (s : AiHookState) (g : Nat) (res : CacheMap)
    (h : s.activeGen ≠ some g) : useAiCmykStep s (.complete g res) = s := by
  simp only [useAiCmykStep]
  rw [if_neg h]

theorem step_fail_stale (s : AiHookState) (g : Nat)
    (h : s.activeGen ≠ some g) : useAiCmykStep s (.fail g) = s := by
  simp only [useAiCmykStep]
  rw [if_neg h]

theorem step_refresh_activeGen (s : AiHookState) (colors : List String)
    (hc : colors ≠ []) :
    (useAiCmykStep s (.refresh colors)).activeGen = some s.nextGen := by
  simp only [useAiCmykStep]
  rw [if_neg (fun hh => hc (List.isEmpty_iff.mp hh))]

/-! ## Claim theorems -/

/-- Claim C3: a stale fetch completion (its generation no longer active)
leaves the hook state — in particular `aiResults` and `isLoading` —
untouched; after a new refresh starts, completing any previously started
generation is a no-op; after teardown every completion is a no-op; and only
a completion of the currently active generation updates the state (it
clears the loading flag). -/
theorem useAiCmyk_stale_refresh_discarded :
    (∀ s : AiHookState, ∀ g : Nat, ∀ res : CacheMap, s.activeGen ≠ some g →
      useAiCmykStep s (.complete g res) = s ∧ useAiCmykStep s (.fail g) = s) ∧
    (∀ events : List AiHookEvent, ∀ colors : List String, ∀ g : Nat,
        ∀ res : CacheMap, colors ≠ [] → g < (runAiHook events).nextGen →
      useAiCmykStep (useAiCmykStep (runAiHook events) (.refresh colors))
          (.complete g res)
        = useAiCmykStep (runAiHook events) (.refresh colors)) ∧
    (∀ s : AiHookState, ∀ g : Nat, ∀ res : CacheMap,
      useAiCmykStep (useAiCmykStep s .teardown) (.complete g res)
        = useAiCmykStep s .teardown) ∧
    (∀ s : AiHookState, ∀ g : Nat, ∀ res : CacheMap, s.activeGen = some g →
      (useAiCmykStep s (.complete g res)).isLoading = false) := by
  refine ⟨?_, ?_, ?_, ?_⟩
  · intro s g res h
    exact ⟨step_complete_stale s g res h, step_fail_stale s g h⟩
  · intro events colors g res hc hg
    apply step_complete_stale
    rw [step_refresh_activeGen _ _ hc]
    intro hsome
    have := Option.some_inj.mp hsome
    omega
  · intro s g res
    apply step_complete_stale
    show ({ s with activeGen := none } : AiHookState).activeGen ≠ some g
    simp
  · intro s g res h
    simp only [useAiCmykStep]
    rw [if_pos h]

/-- Claim C3 witness: concrete stale completion and teardown no-ops. -/
theorem useAiCmyk_stale_refresh_discarded_witness :
    useAiCmykStep ⟨[], true, some 5, 6⟩ (.complete 3 []) = ⟨[], true, some 5, 6⟩
      ∧ useAiCmykStep (useAiCmykStep ⟨[], true, some 5, 6⟩ .teardown)
          (.complete 5 []) = useAiCmykStep ⟨[], true, some 5, 6⟩ .teardown :=
  ⟨(useAiCmyk_stale_refresh_discarded.1 ⟨[], true, some 5, 6⟩ 3 [] (by decide)).1,
   useAiCmyk_stale_refresh_discarded.2.2.1 ⟨[], true, some 5, 6⟩ 5 []⟩

/-- Claim C4 counterexample: `"abc"` is a valid 3-digit hex string, yet
`normalizeHex "abc"` is the 4-character `"#ABC"`, not a 7-character
`#RRGGBB` string — the normalizer does not expand 3-digit shorthand. -/
theorem normalizeHex_three_digit_not_expanded :
    isValidHex "abc" = true ∧ normalizeHex "abc" = "#ABC"
      ∧ ¬((normalizeHex "abc").length = 7) := by
  refine ⟨by decide, by decide, by decide⟩

/-- Claim C4 (amended): on every valid 3- or 6-digit hex string (with or
without leading `#`) `normalizeHex` is idempotent and returns an uppercase
`#`-prefixed valid string, of length 7 when the input has 6 hex digits but
of length 4 (un-expanded `#RGB`) when it has 3; on every invalid string it
returns exactly `"#FFFFFF"`; and it is idempotent on all strings. -/
theorem normalizeHex_idem_uppercase_shape :
    (∀ hex : String, isValidHex hex = true →
      normalizeHex (normalizeHex hex) = normalizeHex hex ∧
      strToUpper (normalizeHex hex) = normalizeHex hex ∧
      (normalizeHex hex).data.head? = some '#' ∧
      isValidHex (normalizeHex hex) = true ∧
      ((normalizeHex hex).length = 4 ∨ (normalizeHex hex).length = 7) ∧
      ((hexBody hex).length = 6 → (normalizeHex hex).length = 7)) ∧
    (∀ hex : String, isValidHex hex = false → normalizeHex hex = "#FFFFFF") ∧
    (∀ hex : String, normalizeHex (normalizeHex hex) = normalizeHex hex) := by
  refine ⟨?_, ?_, normalizeHex_idem⟩
  · intro hex hv
    refine ⟨normalizeHex_idem_valid hex hv, strToUpper_normalizeHex hex hv,
            ?_, isValidHex_normalizeHex hex hv, ?_, ?_⟩
    · rw [data_normalizeHex_valid hex hv]
      rfl
    · rw [length_normalizeHex_valid hex hv]
      rcases ((isValidHex_iff hex).mp hv).1 with h | h
      · left; omega
      · right; omega
    · intro h6
      rw [length_normalizeHex_valid hex hv, h6]
  · exact fun hex hv => normalizeHex_invalid hex hv

/-- Claim C4 witness: the amended statement evaluated at concrete valid and
invalid inputs. -/
theorem normalizeHex_idem_uppercase_shape_witness :
    normalizeHex (normalizeHex "ff00aa") = normalizeHex "ff00aa"
      ∧ (normalizeHex "ff00aa").length = 7
      ∧ normalizeHex "zz" = "#FFFFFF" :=
  ⟨(normalizeHex_idem_uppercase_shape.1 "ff00aa" (by decide)).1,
   (normalizeHex_idem_uppercase_shape.1 "ff00aa" (by decide)).2.2.2.2.2 (by decide),
   normalizeHex_idem_uppercase_shape.2.1 "zz" (by decide)⟩

/-- Claim C6: for every valid hex input the deterministic `standard_auto`
CMYK components are integers in `[0, 100]`; for `#FFFFFF` they are all `0`;
for `#000000` they are `C=M=Y=0, K=100` while the smart recipe for the same
input is exactly `(60, 40, 40, 100)`. -/
theorem getPrintConversions_deterministic_bounds_white_black :
    (∀ hex : String, isValidHex hex = true →
      (0 ≤ (getPrintConversions hex).conversions.standard_auto.c ∧
        (getPrintConversions hex).conversions.standard_auto.c ≤ 100) ∧
      (0 ≤ (getPrintConversions hex).conversions.standard_auto.m ∧
        (getPrintConversions hex).conversions.standard_auto.m ≤ 100) ∧
      (0 ≤ (getPrintConversions hex).conversions.standard_auto.y ∧
        (getPrintConversions hex).conversions.standard_auto.y ≤ 100) ∧
      (0 ≤ (getPrintConversions hex).conversions.standard_auto.k ∧
        (getPrintConversions hex).conversions.standard_auto.k ≤ 100)) ∧
    ((getPrintConversions "#FFFFFF").conversions.standard_auto.c = 0 ∧
     (getPrintConversions "#FFFFFF").conversions.standard_auto.m = 0 ∧
     (getPrintConversions "#FFFFFF").conversions.standard_auto.y = 0 ∧
     (getPrintConversions "#FFFFFF").conversions.standard_auto.k = 0) ∧
    ((getPrintConversions "#000000").conversions.standard_auto.c = 0 ∧
     (getPrintConversions "#000000").conversions.standard_auto.m = 0 ∧
     (getPrintConversions "#000000").conversions.standard_auto.y = 0 ∧
     (getPrintConversions "#000000").conversions.standard_auto.k = 100) ∧
    ((getPrintConversions "#000000").conversions.smart_print_recipe.c = 60 ∧
     (getPrintConversions "#000000").conversions.smart_print_recipe.m = 40 ∧
     (getPrintConversions "#000000").conversions.smart_print_recipe.y = 40 ∧
     (getPrintConversions "#000000").conversions.smart_print_recipe.k = 100) := by
  refine ⟨?_, ?_, ?_, ?_⟩
  · intro hex _
    obtain ⟨hr, hg, hb⟩ := hexToRgb_le (normalizeHex hex)
    exact standardCmyk_bounds _ _ _ hr hg hb
  · exact ⟨by show (stdOf "#FFFFFF").c = 0; rw [stdOf_white],
           by show (stdOf "#FFFFFF").m = 0; rw [stdOf_white],
           by show (stdOf "#FFFFFF").y = 0; rw [stdOf_white],
           by show (stdOf "#FFFFFF").k = 0; rw [stdOf_white]⟩
  · exact ⟨by show (stdOf "#000000").c = 0; rw [stdOf_black],
           by show (stdOf "#000000").m = 0; rw [stdOf_black],
           by show (stdOf "#000000").y = 0; rw [stdOf_black],
           by show (stdOf "#000000").k = 100; rw [stdOf_black]⟩
  · exact ⟨by show (smartOf "#000000").1.c = 60; rw [smartOf_black],
           by show (smartOf "#000000").1.m = 40; rw [smartOf_black],
           by show (smartOf "#000000").1.y = 40; rw [smartOf_black],
           by show (smartOf "#000000").1.k = 100; rw [smartOf_black]⟩

/-- Claim C6 witness: the bounds evaluated at a concrete valid hex. -/
theorem getPrintConversions_deterministic_bounds_witness :
    (0 ≤ (getPrintConversions "#123456").conversions.standard_auto.c ∧
      (getPrintConversions "#123456").conversions.standard_auto.c ≤ 100) ∧
    (0 ≤ (getPrintConversions "#123456").conversions.standard_auto.m ∧
      (getPrintConversions "#123456").conversions.standard_auto.m ≤ 100) ∧
    (0 ≤ (getPrintConversions "#123456").conversions.standard_auto.y ∧
      (getPrintConversions "#123456").conversions.standard_auto.y ≤ 100) ∧
    (0 ≤ (getPrintConversions "#123456").conversions.standard_auto.k ∧
      (getPrintConversions "#123456").conversions.standard_auto.k ≤ 100) :=
  getPrintConversions_deterministic_bounds_white_black.1 "#123456" (by decide)

/-- Claim C7: the heuristic engine applies exactly one rule, in priority
order rich-black, warm, blue, green, with inclusive boundaries: hue 0° and
50° select warm (and hue 0° never selects blue or green, whatever the
input string); 70° and 165° select green; 190° and 260° select blue; hues
strictly inside (50°,70°), (165°,190°) or (260°,330°) match no rule, and
then the smart recipe passes the deterministic CMYK through unchanged. -/
theorem selectSmartRule_boundaries :
    (∀ n : String, ∀ hue : ℚ, n ≠ "#000000" →
      ((hue = 0 ∨ hue = 50) → selectSmartRule n hue = .warm) ∧
      ((hue = 70 ∨ hue = 165) → selectSmartRule n hue = .green) ∧
      ((hue = 190 ∨ hue = 260) → selectSmartRule n hue = .blue) ∧
      (((50 < hue ∧ hue < 70) ∨ (165 < hue ∧ hue < 190)
          ∨ (260 < hue ∧ hue < 330)) → selectSmartRule n hue = .noRule)) ∧
    (∀ n : String, selectSmartRule n 0 ≠ .blue ∧ selectSmartRule n 0 ≠ .green) ∧
    (∀ hex : String,
      selectSmartRule (normalizeHex hex) (hueOf hex) = .noRule →
      (getPrintConversions hex).conversions.smart_print_recipe.c
          = (getPrintConversions hex).conversions.standard_auto.c ∧
      (getPrintConversions hex).conversions.smart_print_recipe.m
          = (getPrintConversions hex).conversions.standard_auto.m ∧
      (getPrintConversions hex).conversions.smart_print_recipe.y
          = (getPrintConversions hex).conversions.standard_auto.y ∧
      (getPrintConversions hex).conversions.smart_print_recipe.k
          = (getPrintConversions hex).conversions.standard_auto.k) := by
  refine ⟨?_, ?_, ?_⟩
  · intro n hue hn
    refine ⟨?_, ?_, ?_, ?_⟩
    · rintro (rfl | rfl) <;>
        (unfold selectSmartRule; rw [if_neg hn, if_pos (by norm_num)])
    · rintro (rfl | rfl) <;>
        (unfold selectSmartRule;
         rw [if_neg hn, if_neg (by norm_num), if_neg (by norm_num),
             if_pos (by norm_num)])
    · rintro (rfl | rfl) <;>
        (unfold selectSmartRule;
         rw [if_neg hn, if_neg (by norm_num), if_pos (by norm_num)])
    · intro h
      unfold selectSmartRule
      rcases h with ⟨h1, h2⟩ | ⟨h1, h2⟩ | ⟨h1, h2⟩ <;>
        rw [if_neg hn,
            if_neg (by rintro (⟨u1, u2⟩ | ⟨u1, u2⟩) <;> linarith),
            if_neg (by rintro ⟨u1, u2⟩; linarith),
            if_neg (by rintro ⟨u1, u2⟩; linarith)]
  · intro n
    by_cases hn : n = "#000000"
    · subst hn
      have h : selectSmartRule "#000000" 0 = .richBlack := by
        unfold selectSmartRule; rw [if_pos rfl]
      rw [h]
      exact ⟨by decide, by decide⟩
    · have h : selectSmartRule n 0 = .warm := by
        unfold selectSmartRule; rw [if_neg hn, if_pos (by norm_num)]
      rw [h]
      exact ⟨by decide, by decide⟩
  · intro hex h
    have hs : smartOf hex = (stdOf hex, "Standard conversion applied.") := by
      unfold smartOf
      rw [h]
      rfl
    exact ⟨by show (smartOf hex).1.c = (stdOf hex).c; rw [hs],
           by show (smartOf hex).1.m = (stdOf hex).m; rw [hs],
           by show (smartOf hex).1.y = (stdOf hex).y; rw [hs],
           by show (smartOf hex).1.k = (stdOf hex).k; rw [hs]⟩

/-- Claim C7 witness: boundary hues evaluated concretely. -/
theorem selectSmartRule_boundaries_witness :
    selectSmartRule "#FF0000" 0 = .warm
      ∧ selectSmartRule "#FF0000" 70 = .green
      ∧ selectSmartRule "#FF0000" 190 = .blue
      ∧ selectSmartRule "#FF0000" 60 = .noRule :=
  ⟨(selectSmartRule_boundaries.1 "#FF0000" 0 (by decide)).1 (Or.inl rfl),
   (selectSmartRule_boundaries.1 "#FF0000" 70 (by decide)).2.1 (Or.inl rfl),
   (selectSmartRule_boundaries.1 "#FF0000" 190 (by decide)).2.2.1 (Or.inl rfl),
   (selectSmartRule_boundaries.1 "#FF0000" 60 (by decide)).2.2.2
     (Or.inl ⟨by norm_num, by norm_num⟩)⟩

/-! ### Branch characterizations of `fetchAiCmykBatch` -/

theorem uncached_mem (hexCodes : List String) (cache : CacheMap) (h : String)
    (hh : h ∈ hexCodes) (hm : mapGet cache (normalizeHex h) = none) :
    normalizeHex h ∈ (partitionCached hexCodes cache).2 := by
  rw [uncached_eq]
  exact List.mem_filter.mpr
    ⟨List.mem_map_of_mem _ hh, by rw [hm]; rfl⟩

theorem uncached_isEmpty_false (hexCodes : List String) (cache : CacheMap)
    (h : String) (hh : h ∈ hexCodes)
    (hm : mapGet cache (normalizeHex h) = none) :
    (partitionCached hexCodes cache).2.isEmpty = false := by
  have hne := List.ne_nil_of_mem (uncached_mem hexCodes cache h hh hm)
  exact Bool.eq_false_iff.mpr (fun hh2 => hne (List.isEmpty_iff.mp hh2))

theorem fetch_branch_empty (hexCodes : List String) (apiKey : Option String)
    (outcome : RemoteOutcome) (st : SysState)
    (he : (partitionCached hexCodes st.cache).2.isEmpty = true) :
    fetchAiCmykBatch hexCodes apiKey outcome st
      = ⟨(partitionCached hexCodes st.cache).1, st, none⟩ := by
  simp only [fetchAiCmykBatch, he, if_true]

theorem fetch_branch_nokey (hexCodes : List String) (apiKey : Option String)
    (outcome : RemoteOutcome) (st : SysState)
    (he : (partitionCached hexCodes st.cache).2.isEmpty = false)
    (hk : keyMissing apiKey = true) :
    fetchAiCmykBatch hexCodes apiKey outcome st
      = ⟨(partitionCached hexCodes st.cache).2.foldl
            (fun acc hex => mapSet acc hex (heuristicFallback hex))
            (partitionCached hexCodes st.cache).1,
         ⟨(partitionCached hexCodes st.cache).2.foldl
              (fun acc hex => mapSet acc hex (heuristicFallback hex)) st.cache,
          some (persistSnapshot ((partitionCached hexCodes st.cache).2.foldl
              (fun acc hex => mapSet acc hex (heuristicFallback hex)) st.cache))⟩,
         none⟩ := by
  simp only [fetchAiCmykBatch, he, hk, Bool.false_eq_true, if_false, if_true,
    pairfold_key_proj]

theorem fetch_branch_failure (hexCodes : List String) (apiKey : Option String)
    (st : SysState)
    (he : (partitionCached hexCodes st.cache).2.isEmpty = false)
    (hk : keyMissing apiKey = false) :
    fetchAiCmykBatch hexCodes apiKey .failure st
      = ⟨(partitionCached hexCodes st.cache).2.foldl
            (fun acc hex => mapSet acc hex (heuristicFallback hex))
            (partitionCached hexCodes st.cache).1,
         st, some (partitionCached hexCodes st.cache).2⟩ := by
  simp only [fetchAiCmykBatch, he, hk, Bool.false_eq_true, if_false]

theorem fetch_branch_success (hexCodes : List String) (apiKey : Option String)
    (parsed : Except Unit (List AiItem)) (st : SysState)
    (he : (partitionCached hexCodes st.cache).2.isEmpty = false)
    (hk : keyMissing apiKey = false) :
    fetchAiCmykBatch hexCodes apiKey (.success parsed) st
      = ⟨(parseAiResponse parsed (partitionCached hexCodes st.cache).2).foldl
            (fun acc e => mapSet acc e.1 e.2)
            (partitionCached hexCodes st.cache).1,
         ⟨(parseAiResponse parsed (partitionCached hexCodes st.cache).2).foldl
              (fun acc e => mapSet acc e.1 e.2) st.cache,
          some (persistSnapshot
            ((parseAiResponse parsed (partitionCached hexCodes st.cache).2).foldl
              (fun acc e => mapSet acc e.1 e.2) st.cache))⟩,
         some (partitionCached hexCodes st.cache).2⟩ := by
  simp only [fetchAiCmykBatch, he, hk, Bool.false_eq_true, if_false,
    pairfold_entry_proj]

/-- Claim C2: when a remote credential is present and the remote call fails
— a thrown/network error or non-2xx status (`RemoteOutcome.failure`), or a
payload that does not parse as JSON (`.success (.error ())`) — every
uncached requested hex is resolved in the returned mapping by the heuristic
engine's fallback result. -/
theorem fetchAiCmykBatch_failure_full_heuristic :
    ∀ hexCodes : List String, ∀ apiKey : Option String,
      ∀ outcome : RemoteOutcome, ∀ st : SysState, ∀ h : String,
      keyMissing apiKey = false →
      (outcome = .failure ∨ outcome = .success (.error ())) →
      h ∈ hexCodes →
      mapGet st.cache (normalizeHex h) = none →
      mapGet (fetchAiCmykBatch hexCodes apiKey outcome st).results
          (normalizeHex h)
        = some (heuristicFallback (normalizeHex h)) := by
  intro hexCodes apiKey outcome st h hk hout hh hm
  have he := uncached_isEmpty_false hexCodes st.cache h hh hm
  have hmem := uncached_mem hexCodes st.cache h hh hm
  rcases hout with rfl | rfl
  · rw [fetch_branch_failure hexCodes apiKey st he hk]
    exact mapGet_foldl_set_mem _ heuristicFallback _ _ hmem
  · rw [fetch_branch_success hexCodes apiKey (.error ()) st he hk]
    exact mapGet_merge_mem_nodup _ _ _ _ (nodup_keys_parse_error () _)
      (mapGet_eq_some_mem _ _ _ (parse_error_get () _ _ hmem))

/-- Claim C2 witness: a concrete failed remote call resolves its uncached
hex heuristically. -/
theorem fetchAiCmykBatch_failure_full_heuristic_witness :
    mapGet (fetchAiCmykBatch ["#FF0000"] (some "key") .failure
        ⟨[], none⟩).results (normalizeHex "#FF0000")
      = some (heuristicFallback (normalizeHex "#FF0000")) :=
  fetchAiCmykBatch_failure_full_heuristic ["#FF0000"] (some "key") .failure
    ⟨[], none⟩ "#FF0000" (by decide) (Or.inl rfl) (by decide) rfl

/-- Claim C10: with a credential present, a failed remote call leaves both
cache tiers exactly as they were (the whole `SysState` is unchanged) while
the heuristic results are only returned, not cached; without a credential
the heuristic results are written to the in-memory cache and the snapshot
of that cache is persisted. -/
theorem fetchAiCmykBatch_failure_preserves_cache_tiers :
    (∀ hexCodes : List String, ∀ apiKey : Option String, ∀ st : SysState,
      keyMissing apiKey = false →
      (fetchAiCmykBatch hexCodes apiKey .failure st).state = st) ∧
    (∀ hexCodes : List String, ∀ apiKey : Option String, ∀ st : SysState,
        ∀ h : String,
      keyMissing apiKey = false → h ∈ hexCodes →
      mapGet st.cache (normalizeHex h) = none →
      mapGet (fetchAiCmykBatch hexCodes apiKey .failure st).results
          (normalizeHex h) = some (heuristicFallback (normalizeHex h))
        ∧ mapGet (fetchAiCmykBatch hexCodes apiKey .failure st).state.cache
            (normalizeHex h) = none) ∧
    (∀ hexCodes : List String, ∀ apiKey : Option String,
        ∀ outcome : RemoteOutcome, ∀ st : SysState, ∀ h : String,
      keyMissing apiKey = true → h ∈ hexCodes →
      mapGet st.cache (normalizeHex h) = none →
      mapGet (fetchAiCmykBatch hexCodes apiKey outcome st).state.cache
          (normalizeHex h) = some (heuristicFallback (normalizeHex h))
        ∧ (fetchAiCmykBatch hexCodes apiKey outcome st).state.storage
          = some (persistSnapshot
              (fetchAiCmykBatch hexCodes apiKey outcome st).state.cache)) := by
  refine ⟨?_, ?_, ?_⟩
  · intro hexCodes apiKey st hk
    by_cases hemp : (partitionCached hexCodes st.cache).2.isEmpty = true
    · rw [fetch_branch_empty _ _ _ _ hemp]
    · rw [fetch_branch_failure _ _ _ (Bool.eq_false_iff.mpr hemp) hk]
  · intro hexCodes apiKey st h hk hh hm
    have he := uncached_isEmpty_false hexCodes st.cache h hh hm
    have hmem := uncached_mem hexCodes st.cache h hh hm
    rw [fetch_branch_failure hexCodes apiKey st he hk]
    exact ⟨mapGet_foldl_set_mem _ heuristicFallback _ _ hmem, hm⟩
  · intro hexCodes apiKey outcome st h hk hh hm
    have he := uncached_isEmpty_false hexCodes st.cache h hh hm
    have hmem := uncached_mem hexCodes st.cache h hh hm
    rw [fetch_branch_nokey hexCodes apiKey outcome st he hk]
    exact ⟨mapGet_foldl_set_mem _ heuristicFallback _ _ hmem, rfl⟩

/-- Claim C10 witness: concrete failure call leaves the state untouched;
concrete no-credential call caches its heuristic result. -/
theorem fetchAiCmykBatch_failure_preserves_cache_tiers_witness :
    (fetchAiCmykBatch ["#FF0000"] (some "key") .failure ⟨[], none⟩).state
        = ⟨[], none⟩
      ∧ mapGet (fetchAiCmykBatch ["#FF0000"] none .failure
            ⟨[], none⟩).state.cache (normalizeHex "#FF0000")
          = some (heuristicFallback (normalizeHex "#FF0000")) :=
  ⟨fetchAiCmykBatch_failure_preserves_cache_tiers.1 ["#FF0000"] (some "key")
      ⟨[], none⟩ (by decide),
   (fetchAiCmykBatch_failure_preserves_cache_tiers.2.2 ["#FF0000"] none
      .failure ⟨[], none⟩ "#FF0000" rfl (by decide) rfl).1⟩

/-- Claim C9 counterexample: a duplicated uncached input hex appears twice
in the single batch request — the partition loop pushes every uncached
occurrence without deduplication, so the request does not carry each
distinct hex exactly once. -/
theorem fetchAiCmykBatch_duplicates_not_deduped :
    (fetchAiCmykBatch ["#0000FF", "#0000FF"] (some "key") .failure
        ⟨[], none⟩).remoteRequested = some ["#0000FF", "#0000FF"]
      ∧ ¬(List.count "#0000FF" ["#0000FF", "#0000FF"] = 1) :=
  ⟨by decide, by decide⟩

/-- Claim C9 (amended): `fetchAiCmykBatch` normalizes its input and issues
at most one remote call per invocation, only when a credential is present
and some hex is uncached; the batch request is the normalized input list
filtered to cache misses, in input order — one entry per uncached input
occurrence, so duplicated inputs are repeated rather than deduplicated. -/
theorem fetchAiCmykBatch_single_batched_request :
    ∀ hexCodes : List String, ∀ apiKey : Option String,
      ∀ outcome : RemoteOutcome, ∀ st : SysState, ∀ l : List String,
      (fetchAiCmykBatch hexCodes apiKey outcome st).remoteRequested = some l →
      l = (hexCodes.map normalizeHex).filter
            (fun n => (mapGet st.cache n).isNone)
        ∧ keyMissing apiKey = false ∧ l ≠ [] := by
  intro hexCodes apiKey outcome st l hl
  by_cases hemp : (partitionCached hexCodes st.cache).2.isEmpty = true
  · rw [fetch_branch_empty _ _ _ _ hemp] at hl
    cases hl
  · have he := Bool.eq_false_iff.mpr hemp
    by_cases hkey : keyMissing apiKey = true
    · rw [fetch_branch_nokey _ _ _ _ he hkey] at hl
      cases hl
    · have hk : keyMissing apiKey = false := Bool.eq_false_iff.mpr hkey
      have main : l = (partitionCached hexCodes st.cache).2 := by
        cases outcome with
        | failure =>
            rw [fetch_branch_failure _ _ _ he hk] at hl
            exact (Option.some_inj.mp hl).symm
        | success parsed =>
            rw [fetch_branch_success _ _ _ _ he hk] at hl
            exact (Option.some_inj.mp hl).symm
      refine ⟨by rw [main, uncached_eq], hk, ?_⟩
      rw [main]
      exact fun hn => hemp (by rw [hn]; rfl)

/-- Claim C9 witness: the amended statement at a concrete duplicated
input. -/
theorem fetchAiCmykBatch_single_batched_request_witness :
    ["#0000FF", "#0000FF"]
        = ((["#0000FF", "#0000FF"].map normalizeHex).filter
            (fun n => (mapGet ([] : CacheMap) n).isNone))
      ∧ keyMissing (some "key") = false
      ∧ (["#0000FF", "#0000FF"] : List String) ≠ [] :=
  fetchAiCmykBatch_single_batched_request ["#0000FF", "#0000FF"] (some "key")
    .failure ⟨[], none⟩ ["#0000FF", "#0000FF"] (by decide)

/-- Claim C5 counterexample: after a no-credential call caches a heuristic
result for `#FF0000`, a second call whose inputs are all cached returns
immediately (no remote request) but the returned entry carries provenance
`heuristic` — the entry's stored source, not `cache`. -/
theorem fetchAiCmykBatch_cached_provenance_not_cache :
    (mapGet (fetchAiCmykBatch ["#FF0000"] none .failure ⟨[], none⟩).state.cache
        (normalizeHex "#FF0000")).isSome = true
      ∧ ((mapGet (fetchAiCmykBatch ["#FF0000"] none .failure
            (fetchAiCmykBatch ["#FF0000"] none .failure ⟨[], none⟩).state).results
          "#FF0000").map (fun r => r.source)) = some Source.heuristic
      ∧ (fetchAiCmykBatch ["#FF0000"] none .failure
            (fetchAiCmykBatch ["#FF0000"] none .failure
              ⟨[], none⟩).state).remoteRequested = none
      ∧ Source.heuristic ≠ Source.cache :=
  ⟨by decide, by decide, by decide, by decide⟩

/-- Claim C5 (amended): when every normalized input hex is in the cache,
`fetchAiCmykBatch` returns immediately — no remote request, state
unchanged — and each returned entry is exactly the cached entry, carrying
whatever provenance is stored there; entries hydrated from the durable
snapshot are the ones tagged `cache`. -/
theorem fetchAiCmykBatch_all_cached_early_return :
    (∀ hexCodes : List String, ∀ apiKey : Option String,
        ∀ outcome : RemoteOutcome, ∀ st : SysState,
      (∀ h ∈ hexCodes, (mapGet st.cache (normalizeHex h)).isSome = true) →
      (fetchAiCmykBatch hexCodes apiKey outcome st).remoteRequested = none
        ∧ (fetchAiCmykBatch hexCodes apiKey outcome st).state = st
        ∧ ∀ h ∈ hexCodes,
            mapGet (fetchAiCmykBatch hexCodes apiKey outcome st).results
                (normalizeHex h)
              = mapGet st.cache (normalizeHex h)) ∧
    (∀ stored : CacheMap, ∀ k : String, ∀ v : AiPrintResult,
      mapGet (hydrateCache (some stored)) k = some v → v.source = .cache) := by
  constructor
  · intro hexCodes apiKey outcome st hall
    have hemp : (partitionCached hexCodes st.cache).2.isEmpty = true := by
      rw [uncached_eq]
      have hnil : ∀ n ∈ hexCodes.map normalizeHex,
          ¬((fun n => (mapGet st.cache n).isNone) n = true) := by
        intro n hn
        rcases List.mem_map.mp hn with ⟨h0, hh0, rfl⟩
        have hs := hall h0 hh0
        show ¬((mapGet st.cache (normalizeHex h0)).isNone = true)
        cases hx : mapGet st.cache (normalizeHex h0) with
        | none => rw [hx] at hs; cases hs
        | some v => simp
      rw [List.filter_eq_nil_iff.mpr hnil]
      rfl
    rw [fetch_branch_empty _ _ _ _ hemp]
    refine ⟨rfl, rfl, ?_⟩
    intro h hh
    obtain ⟨v, hv⟩ := Option.isSome_iff_exists.mp (hall h hh)
    rw [hv, partitionCached_eq]
    exact partition_fold_fst_hit hexCodes st.cache _ v hv
      (List.mem_map_of_mem _ hh) ([], [])
  · intro stored k v hv
    have hP : ∀ e ∈ hydrateCache (some stored), e.2.source = Source.cache := by
      unfold hydrateCache
      refine foldl_invariant
        (fun (m : CacheMap) => ∀ e ∈ m, e.2.source = Source.cache) _ _ _ ?_ ?_
      · intro e he; cases he
      · intro m ent hm e he
        rcases mem_mapSet _ _ _ _ he with h1 | h1
        · exact hm e h1
        · rw [h1]
    exact hP _ (mapGet_eq_some_mem _ _ _ hv)

/-- Claim C5 witness: the amended statement at a concrete fully-cached
call. -/
theorem fetchAiCmykBatch_all_cached_early_return_witness :
    (fetchAiCmykBatch ["#FF0000"] (some "key") .failure
        ⟨[("#FF0000", heuristicFallback "#FF0000")], none⟩).remoteRequested
      = none :=
  (fetchAiCmykBatch_all_cached_early_return.1 ["#FF0000"] (some "key")
    .failure ⟨[("#FF0000", heuristicFallback "#FF0000")], none⟩
    (by
      intro h hh
      rcases List.mem_singleton.mp hh with rfl
      decide)).1

/-- Claim C1 counterexample: with a credential present and a response that
parses as the well-formed (empty) JSON array, the requested uncached hex
`#FF0000` gets no entry at all in the returned mapping — it is not resolved
by the heuristic engine. -/
theorem fetchAiCmykBatch_missing_hex_not_filled :
    normalizeHex "#FF0000" = "#FF0000"
      ∧ (fetchAiCmykBatch ["#FF0000"] (some "key") (.success (.ok []))
          ⟨[], none⟩).remoteRequested = some ["#FF0000"]
      ∧ mapGet (fetchAiCmykBatch ["#FF0000"] (some "key") (.success (.ok []))
          ⟨[], none⟩).results "#FF0000" = none :=
  ⟨by decide, by decide, by decide⟩

/-- Claim C1 (amended): on a response that parses as a JSON array, an
uncached requested hex is answered exactly by the parsed payload: hexes the
payload resolved are returned unchanged from it, and hexes absent from the
parsed array are simply absent from the returned mapping — the per-hex
heuristic fill runs only in the parse-failure branch. -/
theorem fetchAiCmykBatch_success_results_from_payload :
    ∀ hexCodes : List String, ∀ apiKey : Option String,
      ∀ items : List AiItem, ∀ st : SysState, ∀ h : String,
      keyMissing apiKey = false → h ∈ hexCodes →
      mapGet st.cache (normalizeHex h) = none →
      mapGet (fetchAiCmykBatch hexCodes apiKey (.success (.ok items))
          st).results (normalizeHex h)
        = mapGet (parseAiResponse (.ok items)
            (partitionCached hexCodes st.cache).2) (normalizeHex h) := by
  intro hexCodes apiKey items st h hk hh hm
  have he := uncached_isEmpty_false hexCodes st.cache h hh hm
  rw [fetch_branch_success hexCodes apiKey (.ok items) st he hk]
  cases hp : mapGet (parseAiResponse (.ok items)
      (partitionCached hexCodes st.cache).2) (normalizeHex h) with
  | some v =>
      exact mapGet_merge_mem_nodup _ _ _ _ (nodup_keys_parse_ok items _)
        (mapGet_eq_some_mem _ _ _ hp)
  | none =>
      rw [mapGet_merge_not_mem _ _ _ ((mapGet_eq_none_iff _ _).mp hp)]
      rw [partitionCached_eq]
      exact (partition_fold_fst_miss hexCodes st.cache _ hm ([], [])).trans rfl

/-- Claim C1 witness: the amended statement at a concrete call whose parsed
array is empty. -/
theorem fetchAiCmykBatch_success_results_from_payload_witness :
    mapGet (fetchAiCmykBatch ["#FF0000"] (some "key") (.success (.ok []))
        ⟨[], none⟩).results (normalizeHex "#FF0000")
      = mapGet (parseAiResponse (.ok [])
          (partitionCached ["#FF0000"] ([] : CacheMap)).2)
          (normalizeHex "#FF0000") :=
  fetchAiCmykBatch_success_results_from_payload ["#FF0000"] (some "key") []
    ⟨[], none⟩ "#FF0000" (by decide) (by decide) rfl

/-- Claim C8: every smart-recipe CMYK component built from a parsed remote
array element is `clamp` of the received value, hence an integer in
`[0, 100]`; `clamp` itself maps the received `130.7` to `100`; and after a
successful remote call every in-memory cache entry is either an old entry
or one of the parsed (clamped) entries, so no unclamped remote value is
stored or returned. -/
theorem parseAiResponse_clamps_remote_cmyk :
    (∀ items : List AiItem, ∀ req : List String,
        ∀ e : String × AiPrintResult, e ∈ parseAiResponse (.ok items) req →
      ∃ item ∈ items,
        e.2.conversions.smart_print_recipe.c = clamp item.c ∧
        e.2.conversions.smart_print_recipe.m = clamp item.m ∧
        e.2.conversions.smart_print_recipe.y = clamp item.y ∧
        e.2.conversions.smart_print_recipe.k = clamp item.k) ∧
    (∀ items : List AiItem, ∀ req : List String,
        ∀ e : String × AiPrintResult, e ∈ parseAiResponse (.ok items) req →
      (0 ≤ e.2.conversions.smart_print_recipe.c
        ∧ e.2.conversions.smart_print_recipe.c ≤ 100) ∧
      (0 ≤ e.2.conversions.smart_print_recipe.m
        ∧ e.2.conversions.smart_print_recipe.m ≤ 100) ∧
      (0 ≤ e.2.conversions.smart_print_recipe.y
        ∧ e.2.conversions.smart_print_recipe.y ≤ 100) ∧
      (0 ≤ e.2.conversions.smart_print_recipe.k
        ∧ e.2.conversions.smart_print_recipe.k ≤ 100)) ∧
    clamp (1307/10) = 100 ∧
    (∀ hexCodes : List String, ∀ apiKey : Option String,
        ∀ items : List AiItem, ∀ st : SysState, ∀ k : String,
        ∀ v : AiPrintResult,
      keyMissing apiKey = false →
      mapGet (fetchAiCmykBatch hexCodes apiKey (.success (.ok items))
          st).state.cache k = some v →
      mapGet st.cache k = some v
        ∨ v ∈ (parseAiResponse (.ok items)
            (partitionCached hexCodes st.cache).2).map Prod.snd) := by
  refine ⟨?_, ?_, ?_, ?_⟩
  · intro items req e he
    obtain ⟨item, hitem, heq⟩ := parse_ok_values items req e he
    exact ⟨item, hitem, by rw [heq]; rfl, by rw [heq]; rfl, by rw [heq]; rfl,
      by rw [heq]; rfl⟩
  · intro items req e he
    obtain ⟨item, hitem, heq⟩ := parse_ok_values items req e he
    rw [heq]
    exact ⟨clamp_bounds item.c, clamp_bounds item.m, clamp_bounds item.y,
      clamp_bounds item.k⟩
  · have h131 : jsRound (1307/10) = 131 :=
      jsRound_eq_int _ 131 (by norm_num) (by norm_num)
    unfold clamp
    rw [h131]
    decide
  · intro hexCodes apiKey items st k v hk hv
    by_cases hemp : (partitionCached hexCodes st.cache).2.isEmpty = true
    · rw [fetch_branch_empty _ _ _ _ hemp] at hv
      exact Or.inl hv
    · rw [fetch_branch_success _ _ _ _ (Bool.eq_false_iff.mpr hemp) hk] at hv
      exact mapGet_merge_origin _ _ _ _ hv

/-- Claim C8 witness: the clamp relation at a concrete parsed element whose
`c` is the out-of-range `130.7`. -/
theorem parseAiResponse_clamps_remote_cmyk_witness :
    ∃ item ∈ [(⟨"#FF0000", 1307/10, 50, 50, 50, "x", ""⟩ : AiItem)],
      (mkAiResult ⟨"#FF0000", 1307/10, 50, 50, 50, "x", ""⟩).2.conversions.smart_print_recipe.c
          = clamp item.c ∧
      (mkAiResult ⟨"#FF0000", 1307/10, 50, 50, 50, "x", ""⟩).2.conversions.smart_print_recipe.m
          = clamp item.m ∧
      (mkAiResult ⟨"#FF0000", 1307/10, 50, 50, 50, "x", ""⟩).2.conversions.smart_print_recipe.y
          = clamp item.y ∧
      (mkAiResult ⟨"#FF0000", 1307/10, 50, 50, 50, "x", ""⟩).2.conversions.smart_print_recipe.k
          = clamp item.k :=
  parseAiResponse_clamps_remote_cmyk.1
    [⟨"#FF0000", 1307/10, 50, 50, 50, "x", ""⟩] ["#FF0000"]
    (mkAiResult ⟨"#FF0000", 1307/10, 50, 50, 50, "x", ""⟩)
    (List.mem_singleton.mpr rfl)
